import Mathlib

/-!
Verification of the update scheduler of smart-live-rebuild 0.5.1, a shallow
embedding of `src/smart-live-rebuild.py`.

The embedding covers the parts of the program the specification's testable
properties are about:

* the per-backend contract (`VCSSupport` and its `GitSupport` / `HgSupport` /
  `SvnSupport` subclasses): required/optional environment variables, the
  pinned-revision ("not actually live") checks, working-copy path derivation,
  saved/current revision access and the `revcmp` revision comparison;
* `startupdate` / `endupdate` / `abortupdate` (the repository-task state
  machine);
* the scheduler loop in `main` (lines 530-567): the FIFO worklist, the bounded
  in-flight process list, the non-blocking poll, the `KeyboardInterrupt`
  handler and the per-task exception handler;
* the enumeration loop in `main` (lines 497-522) that groups packages into
  repository tasks keyed by working-copy path;
* the parent side of the privilege-separation pipe (lines 574-585).

External effects are made explicit: the deterministic responses of the outside
world (revision query results, update-command exit statuses, and the number of
poll rounds before a child process exits) are inputs, and the side effects the
claims talk about (spawning the update command, re-querying the revision,
sending SIGTERM to a child) are recorded in an event trace.
-/

deriving instance DecidableEq for Except

namespace SmartLiveRebuild

/-! ## Python-style string helpers -/

/-- Python `<` on strings: lexicographic comparison of code points. -/
def pyCharsLt : List Char → List Char → Bool
  | [], [] => false
  | [], _ :: _ => true
  | _ :: _, [] => false
  | a :: as, b :: bs => if a < b then true else if b < a then false else pyCharsLt as bs

/-- Python `a >= b` on strings, i.e. `not (a < b)`. -/
def pyStrGe (a b : String) : Bool := !(pyCharsLt a.data b.data)

/-- Python truthiness of a `str`-or-`None` value: `None` and `''` are falsy. -/
def truthyS : Option String → Bool
  | none => false
  | some s => s != ""

/-- Python `os.path.basename`: everything after the last slash. -/
def pyBasename (s : String) : String := (s.splitOn ("/")).getLastD ""

/-- Python `os.path.dirname`: everything before the last slash. -/
def pyDirname (s : String) : String := String.intercalate ("/") (s.splitOn ("/")).dropLast

/-! ## Backend descriptors -/

/-- The closed set of VCS backends (`vcsl = [GitSupport, HgSupport, SvnSupport]`). -/
inductive VcsKind where
  | git
  | hg
  | svn
deriving DecidableEq, Repr

/-- Source order of `vcsl` (line 283). -/
def vcsl : List VcsKind := [.git, .hg, .svn]

/-- The `inherit` class attribute used by `match()` (lines 79-83). -/
def inheritTag : VcsKind → String
  | .git => "git"
  | .hg => "mercurial"
  | .svn => "subversion"

/-- Required environment variables per backend (`reqenv`). -/
def reqenv : VcsKind → List String
  | .git => ["EGIT_BRANCH", "EGIT_PROJECT", "EGIT_STORE_DIR", "EGIT_UPDATE_CMD"]
  | .hg => ["EHG_PROJECT", "EHG_PULL_CMD", "EHG_REPO_URI"]
  | .svn => ["ESVN_STORE_DIR", "ESVN_UPDATE_CMD", "ESVN_WC_PATH"]

/-- A parsed environment: variable-name/value pairs; a variable that is absent
behaves as the empty string (bash `echo -n "${VAR}"` of an unset variable). -/
abbrev EnvMap := List (String × String)

/-- Value of a variable in a parsed environment (`self.env[v]`). -/
def envget (env : EnvMap) (k : String) : String := (env.lookup k).getD ("")

/-- `getsavedrev()`: `EGIT_VERSION` for git, `ESVN_WC_REVISION` for svn, and the
base-class `None` for mercurial (lines 113-114, 196-197, 265-266). -/
def getsavedrev (k : VcsKind) (env : EnvMap) : Option String :=
  match k with
  | .git => some (envget env ("EGIT_VERSION"))
  | .hg => none
  | .svn => some (envget env ("ESVN_WC_REVISION"))

/-- The pinned-revision ("package is not really a live one") checks performed in
the subclass `__init__` methods (lines 185-188, 221-224, 252-257). -/
def classifyNonlive (k : VcsKind) (env : EnvMap) : Bool :=
  match k with
  | .git =>
    envget env ("EGIT_COMMIT") != "" && envget env ("EGIT_COMMIT") != envget env ("EGIT_BRANCH")
  | .hg =>
    envget env ("EHG_REVISION") != "" && envget env ("EHG_REVISION") != "tip"
  | .svn =>
    (envget env ("ESVN_REPO_URI") != "" && (envget env ("ESVN_REPO_URI")).contains '@')
      || envget env ("ESVN_REVISION") != ""

/-- `getpath()` per backend (lines 190-191, 226-231, 259-260). `none` models the
failed `assert` in `HgSupport.getpath` (an `AssertionError`, i.e. a generic
exception). `distdir` stands for the external
`portage.settings['PORTAGE_ACTUAL_DISTDIR'] or portage.settings['DISTDIR']`. -/
def getpath (k : VcsKind) (distdir : String) (env : EnvMap) : Option String :=
  match k with
  | .git => some (envget env ("EGIT_STORE_DIR") ++ ("/") ++ envget env ("EGIT_PROJECT"))
  | .hg =>
    let uri := envget env ("EHG_REPO_URI")
    let bn0 := pyBasename uri
    let bn := if bn0 != "" then bn0 else pyBasename (pyDirname uri)
    if bn == "" then none
    else some (distdir ++ ("/hg-src/") ++ envget env ("EHG_PROJECT") ++ ("/") ++ bn)
  | .svn => some (envget env ("ESVN_WC_PATH"))

/-- Revision comparison. `VCSSupport.revcmp` (lines 119-121) is identity
comparison, used by git and mercurial; `SvnSupport.revcmp` (lines 273-275) is
Python `oldrev >= newrev`, a lexicographic string comparison. Comparing a
`None` operand with `>=` is a `TypeError` in Python 3, modeled as the generic
exception outcome `.error ()`. -/
def revcmp (k : VcsKind) (oldrev newrev : Option String) : Except Unit Bool :=
  match k with
  | .svn =>
    match oldrev, newrev with
    | some a, some b => .ok (pyStrGe a b)
    | _, _ => .error ()
  | _ => .ok (oldrev == newrev)

/-- `SvnSupport.getrev` (lines 268-271): search the `svn info` output with the
regex `(?m)^Last Changed Rev: (\d+)$` and return the captured digit string, or
`None` when no line matches. -/
def svnRevOfInfo (svninfo : String) : Option String :=
  (svninfo.splitOn ("\n")).findSome? fun line =>
    if line.startsWith ("Last Changed Rev: ") then
      let r := line.drop 18
      if r.length > 0 && r.data.all Char.isDigit then some r else none
    else none

/-! ## Repository tasks and the task state machine -/

/-- The relevant configuration options (`Shared.opts`). -/
structure Opts where
  jobs : Nat
  network : Bool
  local_rev : Bool
deriving DecidableEq, Repr

/-- One repository task as the scheduler sees it: the fields of the constructed
`VCSSupport` instance together with the deterministic responses of the outside
world for this working copy:

* `savedrev` — result of `getsavedrev()`;
* `rev0` — result of `getrev()` if called during `startupdate`;
* `rev1` — result of `getrev()` when called during `endupdate`;
* `exitStatus` — exit status of the update command's child process;
* `delay` — number of poll rounds before that child process exits;
* `startRaises` — whether `startupdate` raises a generic exception
  (e.g. a failing `getrev` subprocess). -/
structure RTask where
  kind : VcsKind
  cpv : List String
  savedrev : Option String
  rev0 : Option String
  rev1 : Option String
  exitStatus : Nat
  delay : Nat
  startRaises : Bool
deriving DecidableEq, Repr

/-- The state `startupdate` leaves behind: the captured `self.oldrev` and
whether `self.subprocess` is a child process (`Popen`) or `None`. -/
structure Started where
  oldrev : Option String
  hasChild : Bool
deriving DecidableEq, Repr

/-- `VCSSupport.startupdate` (lines 133-145):
`self.oldrev = (not Shared.opts.local_rev and self.getsavedrev()) or self.getrev()`
(Python truthiness: the saved revision is used when `--local-rev` is unset and
the saved revision is neither `None` nor empty), and the update command child
is spawned iff network interaction is enabled. -/
def startupdate (opts : Opts) (t : RTask) : Started :=
  { oldrev := if !opts.local_rev && truthyS t.savedrev then t.savedrev else t.rev0
    hasChild := opts.network }

/-- The exit status `endupdate` observes once the child is done: the child's
exit status, or 0 when there is no child (lines 148-149). -/
def retOf (t : RTask) (st : Started) : Nat := if st.hasChild then t.exitStatus else 0

/-- `VCSSupport.endupdate` (lines 147-171) at the moment the poll reports the
child has exited (or immediately, when there is no child): on exit status 0 the
current revision is re-queried and compared with `revcmp`; `revcmp` true means
"no changes" (`.ok false`), false means updated (`.ok true`); a non-zero exit
status raises `Exception('update command returned non-zero result')`, modeled
as `.error ()`, as is a `TypeError` inside `revcmp`. -/
def endupdate (t : RTask) (st : Started) : Except Unit Bool :=
  if retOf t st = 0 then
    match revcmp t.kind st.oldrev t.rev1 with
    | .ok b => .ok (!b)
    | .error _ => .error ()
  else .error ()

/-- Observable side effects of a task, recorded in the scheduler trace:
`updcmd` — the update command child was spawned (`subprocess.Popen`, line 141);
`recheck` — the post-update revision query ran (`getrev`, line 159);
`term` — SIGTERM was sent to the child (`subprocess.terminate()`, line 175).
Events carry the task's package identifier list. -/
inductive Ev where
  | updcmd (cpv : List String)
  | recheck (cpv : List String)
  | term (cpv : List String)
deriving DecidableEq, Repr

/-- Events emitted by `startupdate`. -/
def startEvents (opts : Opts) (t : RTask) : List Ev :=
  if opts.network then [.updcmd t.cpv] else []

/-- Events emitted by the resolving `endupdate` call (the revision re-query
runs exactly when the observed exit status is 0). -/
def endEvents (t : RTask) (st : Started) : List Ev :=
  if retOf t st = 0 then [.recheck t.cpv] else []

/-! ## The scheduler loop -/

/-- An in-flight task (a member of the `processes` list): the task, its
`startupdate` state, and the remaining poll rounds before its child exits. -/
structure Proc where
  task : RTask
  started : Started
  countdown : Nat
deriving DecidableEq, Repr

/-- `VCSSupport.abortupdate` (lines 173-175): `terminate()` is called iff a
child process exists. -/
def abortupdate (p : Proc) : Bool := p.started.hasChild

/-- The SIGTERM events produced by aborting a list of in-flight tasks. -/
def termEvents (ps : List Proc) : List Ev :=
  (ps.filter abortupdate).map fun p => .term p.task.cpv

/-- State of the scheduler loop: the not-yet-started FIFO (`items`), the
in-flight list (`processes`), the two accumulating result sequences
(`packages`, `erraneous`) and the event trace. -/
structure SchedState where
  items : List RTask
  processes : List Proc
  packages : List String
  erraneous : List String
  trace : List Ev
deriving DecidableEq, Repr

/-- Result of one round of the polling `for vcs in processes` loop
(lines 550-554): either no in-flight task has finished (`nothing`), or the
first finished one resolved to changed/unchanged (`resolved`), or its
`endupdate` raised (`failed`). -/
inductive PollRes where
  | nothing
  | resolved (p : Proc) (changed : Bool)
  | failed (p : Proc)
deriving DecidableEq, Repr

/-- The polling loop: each in-flight task is polled once, in order, stopping at
the first one whose child has exited (which is removed — by the loop body on
success, by the exception handler on failure). Polling an unfinished child
consumes one of its remaining poll rounds. -/
def pollLoop : List Proc → PollRes × List Proc
  | [] => (.nothing, [])
  | p :: rest =>
    if p.countdown = 0 then
      match endupdate p.task p.started with
      | .ok b => (.resolved p b, rest)
      | .error _ => (.failed p, rest)
    else
      let pr := pollLoop rest
      (pr.1, { p with countdown := p.countdown - 1 } :: pr.2)

/-- Effect of one poll round on the scheduler state: a resolved-changed task
extends `packages` (line 556-557), a failed one extends `erraneous` through
the per-task exception handler (lines 563-567); the resolving task's
`endupdate` events are recorded. -/
def pollPhase (s : SchedState) : SchedState :=
  match pollLoop s.processes with
  | (.nothing, ps) => { s with processes := ps }
  | (.resolved p b, ps) =>
    { s with processes := ps
             trace := s.trace ++ endEvents p.task p.started
             packages := if b then s.packages ++ p.task.cpv else s.packages }
  | (.failed p, ps) =>
    { s with processes := ps
             trace := s.trace ++ endEvents p.task p.started
             erraneous := s.erraneous ++ p.task.cpv }

/-- The `processes` entry created when a task joins the in-flight list: its
child (if any) exits after `delay` poll rounds; with no child the first poll
already reports completion. -/
def mkProc (opts : Opts) (t : RTask) : Proc :=
  { task := t
    started := startupdate opts t
    countdown := if (startupdate opts t).hasChild then t.delay else 0 }

/-- Result of one iteration of the `while True` loop body: continue looping, or
leave the loop (`break` at line 546). -/
inductive StepRes where
  | cont (s : SchedState)
  | halt (s : SchedState)
deriving DecidableEq, Repr

/-- One iteration of the scheduler loop body (lines 532-567), with no
interrupt and no fatal error: if an in-flight slot is free and the worklist is
non-empty, pop the next task and start it (with `--jobs 1` its `endupdate` is
then awaited blocking; otherwise it joins `processes`); else break if nothing
is in flight; else sleep. Then poll every in-flight task once. A generic
exception from `startupdate` or the blocking `endupdate` is caught by the
per-task handler, which extends `erraneous` and continues the loop. -/
def schedStep (opts : Opts) (s : SchedState) : StepRes :=
  if s.processes.length < opts.jobs ∧ s.items ≠ [] then
    match s.items with
    | [] => .halt s
    | t :: rest =>
      if t.startRaises then
        .cont { s with items := rest, erraneous := s.erraneous ++ t.cpv }
      else
        let st := startupdate opts t
        if opts.jobs = 1 then
          match endupdate t st with
          | .ok true => .cont { s with items := rest
                                       trace := s.trace ++ startEvents opts t ++ endEvents t st
                                       packages := s.packages ++ t.cpv }
          | .ok false => .cont { s with items := rest
                                        trace := s.trace ++ startEvents opts t ++ endEvents t st }
          | .error _ => .cont { s with items := rest
                                       trace := s.trace ++ startEvents opts t ++ endEvents t st
                                       erraneous := s.erraneous ++ t.cpv }
        else
          .cont (pollPhase { s with items := rest
                                    trace := s.trace ++ startEvents opts t
                                    processes := s.processes ++ [mkProc opts t] })
  else if s.processes = [] then .halt s
  else .cont (pollPhase s)

/-- Outcome of running the scheduler loop: normal completion, completion via
the `KeyboardInterrupt` handler (lines 558-562; `aborted` is the in-flight
list at that moment, on each member of which `abortupdate` was invoked), or
fuel exhaustion (an artifact of the embedding). -/
inductive RunOutcome where
  | finished (s : SchedState)
  | interrupted (s : SchedState) (aborted : List Proc)
  | fuelout (s : SchedState)
deriving DecidableEq, Repr

/-- The scheduler loop. `int = some k` means a `KeyboardInterrupt` is delivered
at the start of the `k`-th remaining iteration (cancellation is cooperative:
the signal is observed once per loop iteration); `none` means no interrupt.
On interrupt the handler sends SIGTERM to every in-flight child (recorded as
`term` events) and breaks with the accumulated state, without waiting. -/
def schedRun (opts : Opts) : Nat → Option Nat → SchedState → RunOutcome
  | 0, _, s => .fuelout s
  | fuel + 1, int, s =>
    if int = some 0 then
      .interrupted { s with trace := s.trace ++ termEvents s.processes } s.processes
    else
      match schedStep opts s with
      | .halt s2 => .finished s2
      | .cont s2 => schedRun opts fuel (Option.map (· - 1) int) s2

/-- The scheduler's starting state for a worklist (`items = list(rebuilds.items())`,
line 531, with empty `packages`/`erraneous`). -/
def initState (tasks : List RTask) : SchedState :=
  { items := tasks, processes := [], packages := [], erraneous := [], trace := [] }

/-- The state carried by any run outcome. -/
def stateOf : RunOutcome → SchedState
  | .finished s => s
  | .interrupted s _ => s
  | .fuelout s => s

/-- Final scheduler state of an uninterrupted run. -/
def finalState (opts : Opts) (fuel : Nat) (tasks : List RTask) : SchedState :=
  stateOf (schedRun opts fuel none (initState tasks))

/-- Whether an uninterrupted run reaches the `break` (terminates normally). -/
def runFinished (opts : Opts) (fuel : Nat) (tasks : List RTask) : Bool :=
  match schedRun opts fuel none (initState tasks) with
  | .finished _ => true
  | _ => false

/-- Termination measure of the scheduler loop. -/
def muTask (t : RTask) : Nat := t.delay + 2

/-- Termination measure of an in-flight task. -/
def muProc (p : Proc) : Nat := p.countdown + 1

/-- Termination measure of a scheduler state: every loop iteration that
continues strictly decreases it. -/
def mu (s : SchedState) : Nat := (s.items.map muTask).sum + (s.processes.map muProc).sum

/-! ## Per-task outcome characterisation -/

/-- The outcome a task would have when processed by the scheduler: `.ok true` =
updated, `.ok false` = unchanged, `.error ()` = erraneous. Depends on the
network/local-revision options but not on the concurrency bound. -/
def taskOutcome (opts : Opts) (t : RTask) : Except Unit Bool :=
  if t.startRaises then .error () else endupdate t (startupdate opts t)

/-- Contribution of a pending task to the final `packages` sequence. -/
def taskU (opts : Opts) (t : RTask) : Multiset String :=
  if taskOutcome opts t = .ok true then ↑t.cpv else 0

/-- Contribution of a pending task to the final `erraneous` sequence. -/
def taskE (opts : Opts) (t : RTask) : Multiset String :=
  match taskOutcome opts t with
  | .error _ => ↑t.cpv
  | .ok _ => 0

/-- Contribution of a pending task to the final event trace. -/
def taskT (opts : Opts) (t : RTask) : Multiset Ev :=
  if t.startRaises then 0
  else ↑(startEvents opts t ++ endEvents t (startupdate opts t))

/-- Remaining contribution of an in-flight task to `packages`. -/
def procU (p : Proc) : Multiset String :=
  if endupdate p.task p.started = .ok true then ↑p.task.cpv else 0

/-- Remaining contribution of an in-flight task to `erraneous`. -/
def procE (p : Proc) : Multiset String :=
  match endupdate p.task p.started with
  | .error _ => ↑p.task.cpv
  | .ok _ => 0

/-- Remaining contribution of an in-flight task to the event trace. -/
def procT (p : Proc) : Multiset Ev := ↑(endEvents p.task p.started)

/-- The `packages` sequence (as a multiset) any completed continuation of state
`s` ends with. -/
def totU (opts : Opts) (s : SchedState) : Multiset String :=
  ↑s.packages + (s.processes.map procU).sum + (s.items.map (taskU opts)).sum

/-- The `erraneous` sequence (as a multiset) any completed continuation of
state `s` ends with. -/
def totE (opts : Opts) (s : SchedState) : Multiset String :=
  ↑s.erraneous + (s.processes.map procE).sum + (s.items.map (taskE opts)).sum

/-- The event trace (as a multiset) any completed continuation of state `s`
ends with. -/
def totT (opts : Opts) (s : SchedState) : Multiset Ev :=
  ↑s.trace + (s.processes.map procT).sum + (s.items.map (taskT opts)).sum

/-- All package identifiers still referenced by a state, together with those
already placed in a result sequence. Never increases along the run. -/
def qtot (s : SchedState) : Multiset String :=
  ↑s.packages + ↑s.erraneous
    + (s.items.map fun t => (↑t.cpv : Multiset String)).sum
    + (s.processes.map fun p => (↑p.task.cpv : Multiset String)).sum

/-! ## Enumeration (lines 491-522): grouping packages into repository tasks -/

/-- One candidate package as the enumeration loop sees it: its identifier, its
`INHERITED` tags, its parsed environment, and the deterministic external
responses for its repository (used if it becomes a task). -/
structure Candidate where
  cpv : String
  inherits : List String
  env : EnvMap
  rev0 : Option String
  rev1 : Option String
  exitStatus : Nat
  delay : Nat
  startRaises : Bool
deriving DecidableEq, Repr

/-- Outcome of the subclass `__init__` for one candidate: constructed (with the
`getsavedrev()` value), `NonLiveEbuild`, or a generic exception (in particular
the `KeyError` for missing required variables, lines 101-103). -/
inductive InitOutcome where
  | ok (savedrev : Option String)
  | nonlive
  | exc
deriving DecidableEq, Repr

/-- `VCSSupport.__init__` followed by the subclass checks: the missing-variable
`KeyError` is raised first (base `__init__` runs before the subclass body),
then the pinned-revision checks. -/
def initOutcome (k : VcsKind) (env : EnvMap) : InitOutcome :=
  if (reqenv k).any fun v => envget env v == "" then .exc
  else if classifyNonlive k env then .nonlive
  else .ok (getsavedrev k env)

/-- The `out.err` lines the enumeration loop can emit for a candidate:
`errNonlive` is line 517 (`'%s: %s' % (cpv, e)` for a `NonLiveEbuild`),
`errEnum` is line 519 (`'Error enumerating %s: ...'`). -/
inductive LogLine where
  | errNonlive (cpv : String)
  | errEnum (cpv : String)
deriving DecidableEq, Repr

/-- State of the enumeration loop: the `erraneous` list, the `rebuilds` dict
(an association list keyed by working-copy path, in insertion order, matching
Python dict iteration order), and the error-output log. -/
structure EnumState where
  erraneous : List String
  rebuilds : List (String × RTask)
  log : List LogLine
deriving DecidableEq, Repr

/-- The enumeration starting state. -/
def emptyEnum : EnumState := { erraneous := [], rebuilds := [], log := [] }

/-- The repository task created for a freshly inserted working-copy path
(`rebuilds[dir] = vcs`, line 511). -/
def mkTask (k : VcsKind) (c : Candidate) (saved : Option String) : RTask :=
  { kind := k, cpv := [c.cpv], savedrev := saved, rev0 := c.rev0, rev1 := c.rev1
    exitStatus := c.exitStatus, delay := c.delay, startRaises := c.startRaises }

/-- `dir in rebuilds` / `rebuilds[dir]`. -/
def rbLookup (rb : List (String × RTask)) (d : String) : Option RTask :=
  (rb.lookup d)

/-- In-place mutation of the task stored at key `d`. -/
def rbUpdate (rb : List (String × RTask)) (d : String) (t : RTask) : List (String × RTask) :=
  rb.map fun e => if e.1 == d then (d, t) else e

/-- Processing of one matching backend class for one candidate (the body of the
`for vcs in vcslf` loop, lines 504-513). Returns the new state and whether an
exception aborted the candidate's `try` block (skipping its remaining backends):

* a generic `__init__` exception → `erraneous` + error log (lines 518-520);
* `NonLiveEbuild` → error log only (lines 516-517);
* otherwise, when network mode is on or a saved revision exists (line 508),
  the working-copy path keys into `rebuilds`: a new path inserts a fresh task;
  an existing path appends the candidate's identifier to the stored task
  (`VCSSupport.append`, lines 108-111) — unless the stored task is of a
  different backend class, in which case `append` raises `ValueError`,
  caught by the same generic handler. -/
def stepKind (opts : Opts) (distdir : String) (c : Candidate) (k : VcsKind)
    (st : EnumState) : EnumState × Bool :=
  match initOutcome k c.env with
  | .exc =>
    ({ st with erraneous := st.erraneous ++ [c.cpv], log := st.log ++ [.errEnum c.cpv] }, true)
  | .nonlive =>
    ({ st with log := st.log ++ [.errNonlive c.cpv] }, true)
  | .ok saved =>
    if opts.network || truthyS saved then
      match getpath k distdir c.env with
      | none =>
        ({ st with erraneous := st.erraneous ++ [c.cpv], log := st.log ++ [.errEnum c.cpv] }, true)
      | some d =>
        match rbLookup st.rebuilds d with
        | none =>
          ({ st with rebuilds := st.rebuilds ++ [(d, mkTask k c saved)] }, false)
        | some t =>
          if t.kind == k then
            ({ st with rebuilds := rbUpdate st.rebuilds d { t with cpv := t.cpv ++ [c.cpv] } },
             false)
          else
            ({ st with erraneous := st.erraneous ++ [c.cpv], log := st.log ++ [.errEnum c.cpv] },
             true)
    else (st, false)

/-- The backend classes whose `match()` accepts the candidate's inheritance
tags, in `vcsl` order (the loop does not stop at the first match). -/
def matchedKinds (c : Candidate) : List VcsKind :=
  vcsl.filter fun k => c.inherits.contains (inheritTag k)

/-- The `for vcs in vcslf` loop for one candidate, with the exception
short-circuit of the enclosing `try`. -/
def runKinds (opts : Opts) (distdir : String) (c : Candidate) :
    List VcsKind → EnumState → EnumState
  | [], st => st
  | k :: ks, st =>
    let r := stepKind opts distdir c k st
    if r.2 then r.1 else runKinds opts distdir c ks r.1

/-- Processing of one candidate package (one iteration of `for cpv in
db.cpv_all()`). -/
def processCandidate (opts : Opts) (distdir : String) (c : Candidate)
    (st : EnumState) : EnumState :=
  runKinds opts distdir c (matchedKinds c) st

/-- The enumeration loop over all candidate packages. -/
def enumerate (opts : Opts) (distdir : String) : List Candidate → EnumState → EnumState
  | [], st => st
  | c :: cs, st => enumerate opts distdir cs (processCandidate opts distdir c st)

/-! ## The privilege-separation channel, parent side -/

/-- The value crossing the privilege-separation pipe. -/
structure ScanData where
  packages : List String
  erraneous : List String
deriving DecidableEq, Repr

/-- Parent side of the privilege-separation pipe (lines 574-585): with SIGINT
ignored around the blocking read, `pickle.load` either deserialises the single
message the child wrote, or raises `EOFError` when the child terminated having
written zero bytes — which `main` catches and turns into an immediate
`return 1`. `.ok d` = main continues with the received data; `.error c` = main
returns exit code `c` at once. -/
def parentHandoff : Option ScanData → Except Nat ScanData
  | none => .error 1
  | some d => .ok d

/-! ## Concrete example inputs (used by the witness theorems) -/

/-- A Subversion task resolution probe: the `endupdate` outcome for a task
whose captured old revision is `old`, whose re-queried current revision is
`new`, and whose update child exited with status 0. -/
def svnProbe (old new : String) : Except Unit Bool :=
  endupdate
    { kind := .svn, cpv := [], savedrev := none, rev0 := some old, rev1 := some new
      exitStatus := 0, delay := 0, startRaises := false }
    { oldrev := some old, hasChild := true }

/-- Numeric value of a decimal digit string (most significant digit first). -/
def digitsToNat (s : String) : Nat :=
  s.data.foldl (fun acc c => acc * 10 + (c.toNat - 48)) 0

/-- Example task: a live git package whose repository gained new commits. -/
def egChanged : RTask :=
  { kind := .git, cpv := ["dev-util/alpha-9999"], savedrev := some ("")
    rev0 := some ("r1"), rev1 := some ("r2"), exitStatus := 0, delay := 1, startRaises := false }

/-- Example task: a package whose update command exits with status 2. -/
def egFailing : RTask :=
  { kind := .git, cpv := ["dev-util/beta-9999"], savedrev := some ("")
    rev0 := some ("s1"), rev1 := some ("s1"), exitStatus := 2, delay := 0, startRaises := false }

/-- Example task: a live package whose repository is unchanged. -/
def egUnchanged : RTask :=
  { kind := .hg, cpv := ["dev-util/gamma-9999"], savedrev := none
    rev0 := some ("t1"), rev1 := some ("t1"), exitStatus := 0, delay := 2, startRaises := false }

/-- Example environment for a live git package. -/
def egGitEnv : EnvMap :=
  [("EGIT_BRANCH", "master"), ("EGIT_PROJECT", "proj"), ("EGIT_STORE_DIR", "/store"),
    ("EGIT_UPDATE_CMD", "git fetch")]

/-- Example candidate: first of two git packages sharing one working copy. -/
def egCandA : Candidate :=
  { cpv := "dev-util/alpha-9999", inherits := ["git", "base"], env := egGitEnv
    rev0 := some ("r1"), rev1 := some ("r2"), exitStatus := 0, delay := 1, startRaises := false }

/-- Example candidate: second of two git packages sharing one working copy. -/
def egCandB : Candidate :=
  { cpv := "dev-util/alpha-8888", inherits := ["git"], env := egGitEnv
    rev0 := some ("r1"), rev1 := some ("r2"), exitStatus := 0, delay := 0, startRaises := false }

/-- Example candidate: a git package pinned to a fixed commit
(`EGIT_COMMIT` set and different from `EGIT_BRANCH`). -/
def egCandNonlive : Candidate :=
  { cpv := "dev-util/pinned-9999", inherits := ["git"]
    env := egGitEnv ++ [("EGIT_COMMIT", "deadbeef")]
    rev0 := some ("r1"), rev1 := some ("r1"), exitStatus := 0, delay := 0, startRaises := false }

/-- Example candidate: a git package whose environment does not declare
`EGIT_BRANCH` (a required variable). -/
def egCandMissing : Candidate :=
  { cpv := "dev-util/broken-9999", inherits := ["git"]
    env := [("EGIT_PROJECT", "proj"), ("EGIT_STORE_DIR", "/store"),
      ("EGIT_UPDATE_CMD", "git fetch")]
    rev0 := some ("r1"), rev1 := some ("r1"), exitStatus := 0, delay := 0, startRaises := false }

/-- Example task: the task with no saved revision used to refute the claimed
`oldRevision` capture rule. -/
def egNoSaved : RTask :=
  { kind := .hg, cpv := ["dev-util/delta-9999"], savedrev := none
    rev0 := some ("abc"), rev1 := some ("abc"), exitStatus := 0, delay := 0, startRaises := false }

/-- Example in-flight entry: `egUnchanged` started under concurrency bound 2,
still two poll rounds from child exit. -/
def egIntProc : Proc :=
  { task := egUnchanged, started := { oldrev := some ("t1"), hasChild := true }, countdown := 2 }

/-- The scheduler state returned when the run of `[egChanged, egUnchanged]`
under concurrency bound 2 is interrupted at the start of iteration 2. -/
def egIntState : SchedState :=
  { items := [], processes := [egIntProc], packages := ["dev-util/alpha-9999"]
    erraneous := []
    trace := [.updcmd ["dev-util/alpha-9999"], .updcmd ["dev-util/gamma-9999"],
      .recheck ["dev-util/alpha-9999"], .term ["dev-util/gamma-9999"]] }

/-! ## Basic multiset helpers -/

lemma le_sum_of_mem_map {α β : Type} (f : β → Multiset α) :
    ∀ {l : List β} {b : β}, b ∈ l → f b ≤ (l.map f).sum := by
  intro l
  induction l with
  | nil => intro b hb; cases hb
  | cons x xs ih =>
    intro b hb
    simp only [List.map_cons, List.sum_cons]
    rcases List.mem_cons.mp hb with rfl | hb
    · exact le_add_right le_rfl
    · exact le_add_left (ih hb)

lemma sum_map_le_sum_map {α β : Type} (f g : β → Multiset α)
    (h : ∀ b, f b ≤ g b) : ∀ (l : List β), (l.map f).sum ≤ (l.map g).sum := by
  intro l
  induction l with
  | nil => simp
  | cons x xs ih =>
    simp only [List.map_cons, List.sum_cons]
    exact add_le_add (h x) ih

/-! ## Poll-loop lemmas -/

lemma pollLoop_nothing :
    ∀ {ps qs : List Proc}, pollLoop ps = (.nothing, qs) →
      ∀ (α : Type) (g : Proc → Multiset α),
        (∀ q n, g { q with countdown := n } = g q) →
        (qs.map g).sum = (ps.map g).sum := by
  intro ps
  induction ps with
  | nil =>
    intro qs h α g hg
    simp only [pollLoop, Prod.mk.injEq] at h
    rw [← h.2]
  | cons p rest ih =>
    intro qs h α g hg
    by_cases hc : p.countdown = 0
    · cases he : endupdate p.task p.started with
      | error e => simp [pollLoop, hc, he] at h
      | ok b => simp [pollLoop, hc, he] at h
    · simp only [pollLoop, hc, if_neg hc, ite_false, Prod.mk.injEq] at h
      obtain ⟨h1, h2⟩ := h
      have hrest : pollLoop rest = (.nothing, (pollLoop rest).2) := by
        rw [← h1]
      subst h2
      simp only [List.map_cons, List.sum_cons, hg, ih hrest α g hg]

lemma pollLoop_resolved :
    ∀ {ps qs : List Proc} {p : Proc} {b : Bool}, pollLoop ps = (.resolved p b, qs) →
      endupdate p.task p.started = .ok b
      ∧ ∀ (α : Type) (g : Proc → Multiset α),
          (∀ q n, g { q with countdown := n } = g q) →
          (ps.map g).sum = g p + (qs.map g).sum := by
  intro ps
  induction ps with
  | nil => intro qs p b h; simp [pollLoop] at h
  | cons q rest ih =>
    intro qs p b h
    by_cases hc : q.countdown = 0
    · cases he : endupdate q.task q.started with
      | error e => simp [pollLoop, hc, he] at h
      | ok bb =>
        simp only [pollLoop, hc, ite_true, he, Prod.mk.injEq, PollRes.resolved.injEq] at h
        obtain ⟨⟨rfl, rfl⟩, rfl⟩ := h
        exact ⟨he, fun α g hg => by simp⟩
    · simp only [pollLoop, hc, ite_false, Prod.mk.injEq] at h
      obtain ⟨h1, h2⟩ := h
      have hrest : pollLoop rest = (.resolved p b, (pollLoop rest).2) := by
        rw [← h1]
      obtain ⟨he, hsum⟩ := ih hrest
      subst h2
      refine ⟨he, fun α g hg => ?_⟩
      simp only [List.map_cons, List.sum_cons, hg, hsum α g hg]
      rw [← add_assoc, add_comm (g q) (g p), add_assoc]

lemma pollLoop_failed :
    ∀ {ps qs : List Proc} {p : Proc}, pollLoop ps = (.failed p, qs) →
      endupdate p.task p.started = .error ()
      ∧ ∀ (α : Type) (g : Proc → Multiset α),
          (∀ q n, g { q with countdown := n } = g q) →
          (ps.map g).sum = g p + (qs.map g).sum := by
  intro ps
  induction ps with
  | nil => intro qs p h; simp [pollLoop] at h
  | cons q rest ih =>
    intro qs p h
    by_cases hc : q.countdown = 0
    · cases he : endupdate q.task q.started with
      | ok bb => simp [pollLoop, hc, he] at h
      | error e =>
        simp only [pollLoop, hc, ite_true, he, Prod.mk.injEq, PollRes.failed.injEq] at h
        obtain ⟨rfl, rfl⟩ := h
        exact ⟨by rw [he], fun α g hg => by simp⟩
    · simp only [pollLoop, hc, ite_false, Prod.mk.injEq] at h
      obtain ⟨h1, h2⟩ := h
      have hrest : pollLoop rest = (.failed p, (pollLoop rest).2) := by
        rw [← h1]
      obtain ⟨he, hsum⟩ := ih hrest
      subst h2
      refine ⟨he, fun α g hg => ?_⟩
      simp only [List.map_cons, List.sum_cons, hg, hsum α g hg]
      rw [← add_assoc, add_comm (g q) (g p), add_assoc]

/-- Polling never increases the measure, and strictly decreases it when at
least one task is in flight. -/
lemma pollLoop_mu :
    ∀ ps : List Proc, (((pollLoop ps).2.map muProc).sum ≤ (ps.map muProc).sum)
      ∧ (ps ≠ [] → ((pollLoop ps).2.map muProc).sum < (ps.map muProc).sum) := by
  intro ps
  induction ps with
  | nil => exact ⟨le_rfl, fun h => absurd rfl h⟩
  | cons p rest ih =>
    by_cases hc : p.countdown = 0
    · cases he : endupdate p.task p.started with
      | error e =>
        simp only [pollLoop, hc, ite_true, he]
        exact ⟨by simp [muProc], fun _ => by simp [muProc]⟩
      | ok b =>
        simp only [pollLoop, hc, ite_true, he]
        exact ⟨by simp [muProc], fun _ => by simp [muProc]⟩
    · simp only [pollLoop, hc, ite_false, List.map_cons, List.sum_cons]
      have hp : muProc { p with countdown := p.countdown - 1 } < muProc p := by
        simp only [muProc]; omega
      constructor
      · exact Nat.add_le_add (Nat.le_of_lt hp) ih.1
      · intro _; exact Nat.add_lt_add_of_lt_of_le hp ih.1

/-- Effect of one poll round: the pending-contribution totals and the
identifier pool are preserved (up to resolved tasks dropping out), the result
sequences only grow, and the measure strictly decreases when something is in
flight. -/
lemma pollPhase_spec (opts : Opts) (s : SchedState) :
    (pollPhase s).items = s.items
    ∧ totU opts (pollPhase s) = totU opts s
    ∧ totE opts (pollPhase s) = totE opts s
    ∧ totT opts (pollPhase s) = totT opts s
    ∧ s.packages ⊆ (pollPhase s).packages
    ∧ s.erraneous ⊆ (pollPhase s).erraneous
    ∧ qtot (pollPhase s) ≤ qtot s
    ∧ mu (pollPhase s) ≤ mu s
    ∧ (s.processes ≠ [] → mu (pollPhase s) < mu s) := by
  have hmu := pollLoop_mu s.processes
  rcases hpl : pollLoop s.processes with ⟨r, ps⟩
  rw [hpl] at hmu
  unfold pollPhase
  rw [hpl]
  cases r with
  | nothing =>
    have hU := pollLoop_nothing hpl String procU (fun q n => rfl)
    have hE := pollLoop_nothing hpl String procE (fun q n => rfl)
    have hT := pollLoop_nothing hpl Ev procT (fun q n => rfl)
    have hC := pollLoop_nothing hpl String (fun p => (↑p.task.cpv : Multiset String))
      (fun q n => rfl)
    refine ⟨rfl, ?_, ?_, ?_, fun x hx => hx, fun x hx => hx, ?_, ?_, ?_⟩
    · simp only [totU]; rw [hU]
    · simp only [totE]; rw [hE]
    · simp only [totT]; rw [hT]
    · simp only [qtot]; rw [hC]
    · simp only [mu]; exact Nat.add_le_add_left hmu.1 _
    · intro h; simp only [mu]; exact Nat.add_lt_add_left (hmu.2 h) _
  | resolved p b =>
    obtain ⟨he, hsum⟩ := pollLoop_resolved hpl
    have hE := hsum String procE (fun q n => rfl)
    have hT := hsum Ev procT (fun q n => rfl)
    have hC := hsum String (fun p => (↑p.task.cpv : Multiset String)) (fun q n => rfl)
    have hU := hsum String procU (fun q n => rfl)
    have hpE : procE p = 0 := by simp [procE, he]
    have hpT : procT p = ↑(endEvents p.task p.started) := rfl
    rw [hpE] at hE
    rw [hpT] at hT
    cases b with
    | true =>
      have hpU : procU p = (↑p.task.cpv : Multiset String) := by simp [procU, he]
      rw [hpU] at hU
      refine ⟨rfl, ?_, ?_, ?_, ?_, fun x hx => hx, ?_, ?_, ?_⟩
      · simp only [totU, ite_true, if_true]
        rw [hU, ← Multiset.coe_add]
        abel
      · simp only [totE]; rw [hE]; simp
      · simp only [totT]; rw [hT, ← Multiset.coe_add]; abel
      · simp only [ite_true, if_true]
        exact List.subset_append_left _ _
      · simp only [qtot, ite_true, if_true]
        rw [hC, ← Multiset.coe_add]
        apply le_of_eq
        abel
      · simp only [mu]; exact Nat.add_le_add_left hmu.1 _
      · intro h; simp only [mu]; exact Nat.add_lt_add_left (hmu.2 h) _
    | false =>
      have hpU : procU p = (0 : Multiset String) := by simp [procU, he]
      rw [hpU] at hU
      refine ⟨rfl, ?_, ?_, ?_, fun x hx => hx, fun x hx => hx, ?_, ?_, ?_⟩
      · simp only [totU, ite_false, if_false]
        rw [hU]; simp
      · simp only [totE]; rw [hE]; simp
      · simp only [totT]; rw [hT, ← Multiset.coe_add]; abel
      · simp only [qtot, ite_false, if_false]
        rw [hC]
        refine add_le_add_left ?_ _
        exact self_le_add_left _ _
      · simp only [mu]; exact Nat.add_le_add_left hmu.1 _
      · intro h; simp only [mu]; exact Nat.add_lt_add_left (hmu.2 h) _
  | failed p =>
    obtain ⟨he, hsum⟩ := pollLoop_failed hpl
    have hU := hsum String procU (fun q n => rfl)
    have hE := hsum String procE (fun q n => rfl)
    have hT := hsum Ev procT (fun q n => rfl)
    have hC := hsum String (fun p => (↑p.task.cpv : Multiset String)) (fun q n => rfl)
    have hpU : procU p = 0 := by simp [procU, he]
    have hpE : procE p = (↑p.task.cpv : Multiset String) := by simp [procE, he]
    have hpT : procT p = ↑(endEvents p.task p.started) := rfl
    rw [hpU] at hU
    rw [hpE] at hE
    rw [hpT] at hT
    refine ⟨rfl, ?_, ?_, ?_, fun x hx => hx, List.subset_append_left _ _, ?_, ?_, ?_⟩
    · simp only [totU]; rw [hU]; simp
    · simp only [totE]
      rw [hE, ← Multiset.coe_add]
      abel
    · simp only [totT]; rw [hT, ← Multiset.coe_add]; abel
    · simp only [qtot]
      rw [hC, ← Multiset.coe_add]
      apply le_of_eq
      abel
    · simp only [mu]; exact Nat.add_le_add_left hmu.1 _
    · intro h; simp only [mu]; exact Nat.add_lt_add_left (hmu.2 h) _

/-- A `break` can only happen with an empty worklist and nothing in flight
(when the concurrency bound is at least 1). -/
lemma schedStep_halt_spec (opts : Opts) (hj : 1 ≤ opts.jobs) {s s2 : SchedState}
    (h : schedStep opts s = .halt s2) :
    s2 = s ∧ s.items = [] ∧ s.processes = [] := by
  obtain ⟨it, pr, pk, er, tr⟩ := s
  unfold schedStep at h
  dsimp only at h ⊢
  split at h
  · rename_i hcond
    split at h
    · exact absurd rfl hcond.2
    · rename_i t rest
      split at h
      · exact StepRes.noConfusion h
      · split at h
        · split at h
          · exact StepRes.noConfusion h
          · exact StepRes.noConfusion h
          · exact StepRes.noConfusion h
        · exact StepRes.noConfusion h
  · rename_i hcond
    split at h
    · rename_i hpr
      injection h with h2
      have hit : it = [] := by
        by_contra hne
        exact hcond ⟨by simp [hpr]; omega, hne⟩
      exact ⟨h2.symm, hit, hpr⟩
    · exact StepRes.noConfusion h

/-- Effect of one continuing loop iteration: the pending totals are preserved,
the result sequences only grow, the identifier pool never grows, and the
termination measure strictly decreases. -/
lemma schedStep_cont_spec (opts : Opts) {s s2 : SchedState}
    (h : schedStep opts s = .cont s2) :
    totU opts s2 = totU opts s ∧ totE opts s2 = totE opts s ∧ totT opts s2 = totT opts s
    ∧ s.packages ⊆ s2.packages ∧ s.erraneous ⊆ s2.erraneous
    ∧ qtot s2 ≤ qtot s
    ∧ mu s2 < mu s := by
  obtain ⟨it, pr, pk, er, tr⟩ := s
  unfold schedStep at h
  dsimp only at h ⊢
  split at h
  · rename_i hcond
    split at h
    · exact absurd rfl hcond.2
    · rename_i t rest
      split at h
      · -- startupdate raises; the per-task handler extends erraneous
        rename_i hsr
        injection h with h2
        subst h2
        have hU : taskU opts t = 0 := by simp [taskU, taskOutcome, hsr]
        have hE : taskE opts t = ↑t.cpv := by simp [taskE, taskOutcome, hsr]
        have hT : taskT opts t = 0 := by simp [taskT, hsr]
        refine ⟨?_, ?_, ?_, fun x hx => hx, List.subset_append_left _ _, ?_, ?_⟩
        · simp [totU, hU]
        · simp only [totU, totE, List.map_cons, List.sum_cons, hE]
          rw [← Multiset.coe_add]
          abel
        · simp [totT, hT]
        · dsimp only [qtot]
          simp only [List.map_cons, List.sum_cons]
          rw [← Multiset.coe_add]
          apply le_of_eq
          abel
        · simp only [mu, List.map_cons, List.sum_cons, muTask]
          omega
      · rename_i hsr
        split at h
        · -- jobs = 1: blocking endupdate
          rename_i hj1
          split at h
          all_goals rename_i heq
          · -- changed
            injection h with h2
            subst h2
            have hto : taskOutcome opts t = .ok true := by simp [taskOutcome, hsr, heq]
            have hU : taskU opts t = ↑t.cpv := by simp [taskU, hto]
            have hE : taskE opts t = 0 := by simp [taskE, hto]
            have hT : taskT opts t =
                ↑(startEvents opts t ++ endEvents t (startupdate opts t)) := by
              simp [taskT, hsr]
            refine ⟨?_, ?_, ?_, List.subset_append_left _ _, fun x hx => hx, ?_, ?_⟩
            · simp only [totU, List.map_cons, List.sum_cons, hU]
              rw [← Multiset.coe_add]
              abel
            · simp [totE, hE]
            · simp only [totT, List.map_cons, List.sum_cons, hT, ← Multiset.coe_add]
              abel
            · dsimp only [qtot]
              simp only [List.map_cons, List.sum_cons]
              rw [← Multiset.coe_add]
              apply le_of_eq
              abel
            · simp only [mu, List.map_cons, List.sum_cons, muTask]
              omega
          · -- unchanged
            injection h with h2
            subst h2
            have hto : taskOutcome opts t = .ok false := by simp [taskOutcome, hsr, heq]
            have hU : taskU opts t = 0 := by simp [taskU, hto]
            have hE : taskE opts t = 0 := by simp [taskE, hto]
            have hT : taskT opts t =
                ↑(startEvents opts t ++ endEvents t (startupdate opts t)) := by
              simp [taskT, hsr]
            refine ⟨?_, ?_, ?_, fun x hx => hx, fun x hx => hx, ?_, ?_⟩
            · simp [totU, hU]
            · simp [totE, hE]
            · simp only [totT, List.map_cons, List.sum_cons, hT, ← Multiset.coe_add]
              abel
            · dsimp only [qtot]
              simp only [List.map_cons, List.sum_cons]
              refine add_le_add_right ?_ _
              refine add_le_add_left ?_ _
              exact self_le_add_left _ _
            · simp only [mu, List.map_cons, List.sum_cons, muTask]
              omega
          · -- endupdate raised
            injection h with h2
            subst h2
            have hto : taskOutcome opts t = .error () := by simp [taskOutcome, hsr, heq]
            have hU : taskU opts t = 0 := by simp [taskU, hto]
            have hE : taskE opts t = ↑t.cpv := by simp [taskE, hto]
            have hT : taskT opts t =
                ↑(startEvents opts t ++ endEvents t (startupdate opts t)) := by
              simp [taskT, hsr]
            refine ⟨?_, ?_, ?_, fun x hx => hx, List.subset_append_left _ _, ?_, ?_⟩
            · simp [totU, hU]
            · simp only [totE, List.map_cons, List.sum_cons, hE]
              rw [← Multiset.coe_add]
              abel
            · simp only [totT, List.map_cons, List.sum_cons, hT, ← Multiset.coe_add]
              abel
            · dsimp only [qtot]
              simp only [List.map_cons, List.sum_cons]
              rw [← Multiset.coe_add]
              apply le_of_eq
              abel
            · simp only [mu, List.map_cons, List.sum_cons, muTask]
              omega
        · -- jobs > 1: the task joins the in-flight list, then a poll round runs
          rename_i hj1
          injection h with h2
          subst h2
          have hprU : procU (mkProc opts t) = taskU opts t := by
            simp [procU, mkProc, taskU, taskOutcome, hsr]
          have hprE : procE (mkProc opts t) = taskE opts t := by
            simp [procE, mkProc, taskE, taskOutcome, hsr]
          have hprT : procT (mkProc opts t) = ↑(endEvents t (startupdate opts t)) := rfl
          have hT : taskT opts t =
              ↑(startEvents opts t) + ↑(endEvents t (startupdate opts t)) := by
            simp [taskT, hsr, ← Multiset.coe_add]
          have P := pollPhase_spec opts
            { items := rest, processes := pr ++ [mkProc opts t],
              packages := pk, erraneous := er, trace := tr ++ startEvents opts t }
          refine ⟨?_, ?_, ?_, ?_, ?_, ?_, ?_⟩
          · rw [P.2.1]
            simp only [totU, List.map_cons, List.sum_cons, List.map_append, List.sum_append,
              List.map_cons, List.map_nil, List.sum_cons, List.sum_nil, hprU]
            abel
          · rw [P.2.2.1]
            simp only [totE, List.map_cons, List.sum_cons, List.map_append, List.sum_append,
              List.map_cons, List.map_nil, List.sum_cons, List.sum_nil, hprE]
            abel
          · rw [P.2.2.2.1]
            simp only [totT, List.map_cons, List.sum_cons, List.map_append, List.sum_append,
              List.map_cons, List.map_nil, List.sum_cons, List.sum_nil, hprT, hT,
              ← Multiset.coe_add, add_zero]
            abel
          · exact P.2.2.2.2.1
          · exact P.2.2.2.2.2.1
          · refine le_trans P.2.2.2.2.2.2.1 ?_
            dsimp only [qtot]
            simp only [List.map_cons, List.sum_cons, List.map_append, List.sum_append,
              List.map_nil, List.sum_nil]
            apply le_of_eq
            abel
          · refine lt_of_lt_of_le (P.2.2.2.2.2.2.2.2 (by simp)) ?_
            have hcd : (if (startupdate opts t).hasChild then t.delay else 0) ≤ t.delay := by
              split <;> omega
            simp only [mu, mkProc, List.map_cons, List.sum_cons, List.map_append,
              List.sum_append, List.map_nil, List.sum_nil, muTask, muProc]
            omega
  · -- no free slot or empty worklist: sleep, then a poll round
    rename_i hcond
    split at h
    · exact StepRes.noConfusion h
    · rename_i hpr
      injection h with h2
      subst h2
      have P := pollPhase_spec opts
        { items := it, processes := pr, packages := pk, erraneous := er, trace := tr }
      exact ⟨P.2.1, P.2.2.1, P.2.2.2.1, P.2.2.2.2.1, P.2.2.2.2.2.1, P.2.2.2.2.2.2.1,
        P.2.2.2.2.2.2.2.2 hpr⟩

/-- Any state whose measure is below the fuel runs to normal completion, with
final `packages` / `erraneous` / trace carrying exactly the pending totals. -/
lemma schedRun_finishes (opts : Opts) (hj : 1 ≤ opts.jobs) :
    ∀ (fuel : Nat) (s : SchedState), mu s < fuel →
    ∃ s2, schedRun opts fuel none s = .finished s2 ∧ s2.items = [] ∧ s2.processes = []
      ∧ (↑s2.packages : Multiset String) = totU opts s
      ∧ (↑s2.erraneous : Multiset String) = totE opts s
      ∧ (↑s2.trace : Multiset Ev) = totT opts s := by
  intro fuel
  induction fuel with
  | zero => intro s hmu; omega
  | succ n ih =>
    intro s hmu
    rcases hstep : schedStep opts s with s1 | s1
    · obtain ⟨hU, hE, hT, _, _, _, hlt⟩ := schedStep_cont_spec opts hstep
      obtain ⟨s2, hrun, hi, hp, h1, h2, h3⟩ := ih s1 (by omega)
      refine ⟨s2, ?_, hi, hp, by rw [h1, hU], by rw [h2, hE], by rw [h3, hT]⟩
      simp only [schedRun]
      rw [if_neg (by simp), hstep]
      exact hrun
    · obtain ⟨rfl, hi, hp⟩ := schedStep_halt_spec opts hj hstep
      refine ⟨s1, ?_, hi, hp, ?_, ?_, ?_⟩
      · simp only [schedRun]
        rw [if_neg (by simp), hstep]
      · simp [totU, hi, hp]
      · simp [totE, hi, hp]
      · simp [totT, hi, hp]

/-- The per-task outcome does not depend on the concurrency bound. -/
lemma taskOutcome_jobs (a b : Nat) (net lr : Bool) (t : RTask) :
    taskOutcome ⟨a, net, lr⟩ t = taskOutcome ⟨b, net, lr⟩ t := rfl

/-- The pending result totals of the starting state do not depend on the
concurrency bound. -/
lemma totU_init_jobs (a b : Nat) (net lr : Bool) (tasks : List RTask) :
    totU ⟨a, net, lr⟩ (initState tasks) = totU ⟨b, net, lr⟩ (initState tasks) := rfl

/-- Companion of `totU_init_jobs` for `erraneous`. -/
lemma totE_init_jobs (a b : Nat) (net lr : Bool) (tasks : List RTask) :
    totE ⟨a, net, lr⟩ (initState tasks) = totE ⟨b, net, lr⟩ (initState tasks) := rfl

/-- Pending totals of the starting state are the per-task contributions. -/
lemma totU_init (opts : Opts) (tasks : List RTask) :
    totU opts (initState tasks) = (tasks.map (taskU opts)).sum := by
  simp [totU, initState]

/-- Companion of `totU_init` for `erraneous`. -/
lemma totE_init (opts : Opts) (tasks : List RTask) :
    totE opts (initState tasks) = (tasks.map (taskE opts)).sum := by
  simp [totE, initState]

/-- Companion of `totU_init` for the event trace. -/
lemma totT_init (opts : Opts) (tasks : List RTask) :
    totT opts (initState tasks) = (tasks.map (taskT opts)).sum := by
  simp [totT, initState]

/-- Where the `KeyboardInterrupt` handler can leave the scheduler: the aborted
list is the in-flight list, every in-flight task with a child has a SIGTERM
event in the returned trace, the returned result sequences extend everything
accumulated from the starting state on, and the identifier pool never grew. -/
lemma schedRun_interrupted_spec (opts : Opts) :
    ∀ (fuel k : Nat) (s s2 : SchedState) (ab : List Proc),
      schedRun opts fuel (some k) s = .interrupted s2 ab →
      ab = s2.processes
      ∧ (∀ p ∈ ab, abortupdate p = true → Ev.term p.task.cpv ∈ s2.trace)
      ∧ s.packages ⊆ s2.packages ∧ s.erraneous ⊆ s2.erraneous
      ∧ qtot s2 ≤ qtot s := by
  intro fuel
  induction fuel with
  | zero => intro k s s2 ab h; simp [schedRun] at h
  | succ n ih =>
    intro k s s2 ab h
    simp only [schedRun] at h
    by_cases hk : (some k : Option Nat) = some 0
    · rw [if_pos hk] at h
      injection h with h1 h2
      subst h1
      subst h2
      refine ⟨rfl, ?_, fun x hx => hx, fun x hx => hx, le_rfl⟩
      intro p hp habort
      simp only [termEvents, List.mem_append, List.mem_map, List.mem_filter]
      exact Or.inr ⟨p, ⟨hp, habort⟩, rfl⟩
    · rw [if_neg hk] at h
      rcases hstep : schedStep opts s with s1 | s1
      · rw [hstep] at h
        obtain ⟨hab, hterm, hpk, her, hq⟩ := ih _ s1 s2 ab h
        obtain ⟨_, _, _, hpk0, her0, hq0, _⟩ := schedStep_cont_spec opts hstep
        exact ⟨hab, hterm, fun x hx => hpk (hpk0 hx), fun x hx => her (her0 hx),
          le_trans hq hq0⟩
      · rw [hstep] at h
        exact RunOutcome.noConfusion h

/-- Interrupting later never loses what an earlier interrupt would have
returned: the `packages` and `erraneous` sequences only grow between interrupt
points. -/
lemma interrupt_mono (opts : Opts) :
    ∀ (fuel j k : Nat) (s sj sk : SchedState) (aj ak : List Proc), j ≤ k →
      schedRun opts fuel (some j) s = .interrupted sj aj →
      schedRun opts fuel (some k) s = .interrupted sk ak →
      sj.packages ⊆ sk.packages ∧ sj.erraneous ⊆ sk.erraneous := by
  intro fuel
  induction fuel with
  | zero => intro j k s sj sk aj ak hjk hj hk; simp [schedRun] at hj
  | succ n ih =>
    intro j k s sj sk aj ak hjk hj hk
    by_cases hj0 : j = 0
    · subst hj0
      obtain ⟨_, _, hpk, her, _⟩ := schedRun_interrupted_spec opts (n + 1) k s sk ak hk
      have hj2 : RunOutcome.interrupted
          { s with trace := s.trace ++ termEvents s.processes } s.processes
          = .interrupted sj aj := hj
      injection hj2 with h1 h2
      subst h1
      exact ⟨hpk, her⟩
    · obtain ⟨j', rfl⟩ := Nat.exists_eq_succ_of_ne_zero hj0
      obtain ⟨k', rfl⟩ := Nat.exists_eq_succ_of_ne_zero (by omega : k ≠ 0)
      simp only [schedRun] at hj hk
      rw [if_neg (by simp)] at hj
      rw [if_neg (by simp)] at hk
      rcases hstep : schedStep opts s with s1 | s1
      · rw [hstep] at hj hk
        exact ih j' k' s1 sj sk aj ak (by omega) hj hk
      · rw [hstep] at hj
        exact RunOutcome.noConfusion hj

/-! ## Identifier accounting -/

lemma cpvs_flatMap (tasks : List RTask) :
    (tasks.map fun t => (↑t.cpv : Multiset String)).sum = ↑(tasks.flatMap RTask.cpv) := by
  induction tasks with
  | nil => simp
  | cons t ts ih => simp [List.flatMap_cons, ih, ← Multiset.coe_add]

lemma taskU_add_taskE_le (opts : Opts) (t : RTask) :
    taskU opts t + taskE opts t ≤ (↑t.cpv : Multiset String) := by
  cases hto : taskOutcome opts t with
  | error e => simp [taskU, taskE, hto]
  | ok b => cases b <;> simp [taskU, taskE, hto]

lemma sum_taskU_add_sum_taskE_le (opts : Opts) (tasks : List RTask) :
    (tasks.map (taskU opts)).sum + (tasks.map (taskE opts)).sum
      ≤ ↑(tasks.flatMap RTask.cpv) := by
  induction tasks with
  | nil => simp
  | cons t ts ih =>
    simp only [List.map_cons, List.sum_cons, List.flatMap_cons, ← Multiset.coe_add]
    calc taskU opts t + (ts.map (taskU opts)).sum
          + (taskE opts t + (ts.map (taskE opts)).sum)
        = (taskU opts t + taskE opts t)
          + ((ts.map (taskU opts)).sum + (ts.map (taskE opts)).sum) := by abel
      _ ≤ ↑t.cpv + ↑(ts.flatMap RTask.cpv) := add_le_add (taskU_add_taskE_le opts t) ih

lemma mem_sum_of_mem {α β : Type} (f : β → Multiset α) {l : List β} {b : β} {x : α}
    (hb : b ∈ l) (hx : x ∈ f b) : x ∈ (l.map f).sum :=
  Multiset.mem_of_le (le_sum_of_mem_map f hb) hx

/-- With pairwise-distinct package identifiers, an identifier contributed to
the erraneous total cannot also appear in the updated total. -/
lemma not_mem_sumU_of_mem_sumE (opts : Opts) (tasks : List RTask)
    (hnd : (tasks.flatMap RTask.cpv).Nodup) {x : String}
    (hx : x ∈ (tasks.map (taskE opts)).sum) : x ∉ (tasks.map (taskU opts)).sum := by
  intro hu
  have hcount := Multiset.count_le_of_le x (sum_taskU_add_sum_taskE_le opts tasks)
  rw [Multiset.count_add] at hcount
  have h1 : 0 < Multiset.count x (tasks.map (taskU opts)).sum := Multiset.count_pos.mpr hu
  have h2 : 0 < Multiset.count x (tasks.map (taskE opts)).sum := Multiset.count_pos.mpr hx
  have h3 : Multiset.count x (↑(tasks.flatMap RTask.cpv) : Multiset String) ≤ 1 := by
    rw [Multiset.coe_count]
    exact List.nodup_iff_count_le_one.mp hnd x
  omega

lemma qtot_init (tasks : List RTask) :
    qtot (initState tasks) = ↑(tasks.flatMap RTask.cpv) := by
  simp [qtot, initState, cpvs_flatMap]

/-- With pairwise-distinct package identifiers, an identifier still carried by
an in-flight task appears in neither result sequence. -/
lemma qtot_excl {tasks : List RTask} (hnd : (tasks.flatMap RTask.cpv).Nodup)
    {s2 : SchedState} (hq : qtot s2 ≤ qtot (initState tasks))
    {p : Proc} (hp : p ∈ s2.processes) {x : String} (hx : x ∈ p.task.cpv) :
    x ∉ s2.packages ∧ x ∉ s2.erraneous := by
  have hq2 : qtot s2 ≤ ↑(tasks.flatMap RTask.cpv) := by rwa [qtot_init] at hq
  have hcount := Multiset.count_le_of_le x hq2
  simp only [qtot, Multiset.count_add] at hcount
  have h3 : Multiset.count x (↑(tasks.flatMap RTask.cpv) : Multiset String) ≤ 1 := by
    rw [Multiset.coe_count]
    exact List.nodup_iff_count_le_one.mp hnd x
  have hproc : 0 < Multiset.count x
      (s2.processes.map fun p => (↑p.task.cpv : Multiset String)).sum :=
    Multiset.count_pos.mpr (mem_sum_of_mem _ hp (Multiset.mem_coe.mpr hx))
  constructor
  · intro hmem
    have : 0 < Multiset.count x (↑s2.packages : Multiset String) :=
      Multiset.count_pos.mpr (Multiset.mem_coe.mpr hmem)
    omega
  · intro hmem
    have : 0 < Multiset.count x (↑s2.erraneous : Multiset String) :=
      Multiset.count_pos.mpr (Multiset.mem_coe.mpr hmem)
    omega

/-! ## Claim C1 -/

/-- C1: for every fixed set of repository tasks with deterministic backend
responses and every concurrency bound `n ≥ 1` (with enough fuel for either run
to reach its `break`), the scheduler loop finishes and produces the same
multisets — hence the same sets, order aside — of updated and of erraneous
package identifiers as the run of the same tasks with concurrency bound 1. -/
theorem scanresult_independent_of_concurrency (net lr : Bool) (tasks : List RTask)
    (n f1 f2 : Nat) (hn : 1 ≤ n)
    (h1 : mu (initState tasks) < f1) (h2 : mu (initState tasks) < f2) :
    runFinished ⟨n, net, lr⟩ f1 tasks = true
    ∧ runFinished ⟨1, net, lr⟩ f2 tasks = true
    ∧ (↑(finalState ⟨n, net, lr⟩ f1 tasks).packages : Multiset String)
        = ↑(finalState ⟨1, net, lr⟩ f2 tasks).packages
    ∧ (↑(finalState ⟨n, net, lr⟩ f1 tasks).erraneous : Multiset String)
        = ↑(finalState ⟨1, net, lr⟩ f2 tasks).erraneous := by
  obtain ⟨s1, hr1, _, _, hp1, he1, _⟩ :=
    schedRun_finishes ⟨n, net, lr⟩ hn f1 (initState tasks) h1
  obtain ⟨s2, hr2, _, _, hp2, he2, _⟩ :=
    schedRun_finishes ⟨1, net, lr⟩ le_rfl f2 (initState tasks) h2
  refine ⟨?_, ?_, ?_, ?_⟩
  · simp [runFinished, hr1]
  · simp [runFinished, hr2]
  · simp only [finalState, hr1, hr2, stateOf]
    rw [hp1, hp2, totU_init_jobs n 1 net lr]
  · simp only [finalState, hr1, hr2, stateOf]
    rw [he1, he2, totE_init_jobs n 1 net lr]

/-- C1 witness: three concrete tasks (one updated, one failing, one
unchanged), concurrency bound 2 versus 1. -/
theorem scanresult_independent_of_concurrency_witness :
    runFinished ⟨2, true, false⟩ 20 [egChanged, egFailing, egUnchanged] = true
    ∧ runFinished ⟨1, true, false⟩ 20 [egChanged, egFailing, egUnchanged] = true
    ∧ (↑(finalState ⟨2, true, false⟩ 20 [egChanged, egFailing, egUnchanged]).packages
        : Multiset String)
        = ↑(finalState ⟨1, true, false⟩ 20 [egChanged, egFailing, egUnchanged]).packages
    ∧ (↑(finalState ⟨2, true, false⟩ 20 [egChanged, egFailing, egUnchanged]).erraneous
        : Multiset String)
        = ↑(finalState ⟨1, true, false⟩ 20 [egChanged, egFailing, egUnchanged]).erraneous :=
  scanresult_independent_of_concurrency true false [egChanged, egFailing, egUnchanged]
    2 20 20 (by decide) (by decide) (by decide)

/-! ## Claim C4 -/

/-- C4: the Subversion backend's revision comparison uses "old ≥ new"
semantics — with oldrev "5", newrev "5" and with oldrev "5", newrev "3" the
task resolves Unchanged (`endupdate` returns `False`), with oldrev "3",
newrev "5" it resolves Changed — while every other backend's comparison is
identity equality of the two revisions. -/
theorem svn_revcmp_ge_semantics :
    revcmp .svn (some ("5")) (some ("5")) = .ok true
    ∧ revcmp .svn (some ("5")) (some ("3")) = .ok true
    ∧ revcmp .svn (some ("3")) (some ("5")) = .ok false
    ∧ svnProbe ("5") ("5") = .ok false
    ∧ svnProbe ("5") ("3") = .ok false
    ∧ svnProbe ("3") ("5") = .ok true
    ∧ (∀ a b : Option String, revcmp .git a b = .ok (a == b))
    ∧ (∀ a b : Option String, revcmp .hg a b = .ok (a == b)) :=
  ⟨by decide, by decide, by decide, by decide, by decide, by decide,
    fun a b => rfl, fun a b => rfl⟩

/-! ## Claim C10 -/

/-- C10: for the Subversion backend revisions are decimal digit strings (the
`svn info` parse only ever yields a nonempty all-digit string) and the
"old ≥ new" comparison is lexicographic string order, not numeric order: for
every pair of digit strings where the old revision is lexicographically
greater-or-equal — even when numerically smaller, as for old="9", new="10" —
an exit-0 Subversion task resolves Unchanged. -/
theorem svn_revcmp_lexicographic (old new : String)
    (_hd1 : old.data.all Char.isDigit = true) (_hd2 : new.data.all Char.isDigit = true)
    (hge : pyCharsLt old.data new.data = false) :
    pyStrGe old new = true
    ∧ (∀ (t : RTask) (st : Started), t.kind = .svn → st.oldrev = some old →
        t.rev1 = some new → retOf t st = 0 → endupdate t st = .ok false)
    ∧ (∀ (info r : String), svnRevOfInfo info = some r →
        r ≠ "" ∧ r.data.all Char.isDigit = true) := by
  refine ⟨by simp [pyStrGe, hge], ?_, ?_⟩
  · intro t st hk ho hr hret
    simp [endupdate, hret, revcmp, hk, ho, hr, pyStrGe, hge]
  · intro info r hr
    obtain ⟨l1, line, l2, _, hf, _⟩ :=
      List.findSome?_eq_some_iff.mp hr
    by_cases hs : line.startsWith ("Last Changed Rev: ")
    · rw [if_pos hs] at hf
      by_cases hc : ((line.drop 18).length > 0 && (line.drop 18).data.all Char.isDigit) = true
      · rw [if_pos hc] at hf
        injection hf with hf
        subst hf
        obtain ⟨hlen, hdig⟩ := Bool.and_eq_true_iff.mp hc
        refine ⟨?_, hdig⟩
        intro h0
        rw [h0] at hlen
        simp at hlen
      · rw [if_neg hc] at hf
        exact Option.noConfusion hf
    · rw [if_neg hs] at hf
      exact Option.noConfusion hf

/-- C10 witness: old="9", new="10" — lexicographically "9" ≥ "10" although
9 < 10 numerically, and the task resolves Unchanged. -/
theorem svn_revcmp_lexicographic_witness :
    pyStrGe ("9") ("10") = true
    ∧ svnProbe ("9") ("10") = .ok false
    ∧ digitsToNat ("9") = 9 ∧ digitsToNat ("10") = 10
    ∧ digitsToNat ("9") < digitsToNat ("10") := by
  obtain ⟨h1, h2, _⟩ := svn_revcmp_lexicographic ("9") ("10") (by decide) (by decide) (by decide)
  exact ⟨h1, h2 _ _ rfl rfl rfl (by decide), by decide, by decide, by decide⟩

/-! ## Claim C9 -/

/-- C9 counterexample: with network interaction on and the local-revision
option off (so the claim's "network off or local-rev disabled" condition
holds), a task whose backend has no saved revision (mercurial,
`getsavedrev() = None`) captures `oldRevision` from `getrev()` — the claimed
unconditional capture via `savedRevision` is false. -/
theorem startupdate_oldrev_claim_cex :
    (⟨1, true, false⟩ : Opts).local_rev = false
    ∧ (startupdate ⟨1, true, false⟩ egNoSaved).oldrev = egNoSaved.rev0
    ∧ (startupdate ⟨1, true, false⟩ egNoSaved).oldrev ≠ egNoSaved.savedrev := by
  decide

/-- C9 (amended): `startupdate` captures `oldRevision` from `savedRevision`
exactly when the local-revision option is disabled and the saved revision is
present and non-empty, and otherwise from `currentRevision`
(`(not local_rev and getsavedrev()) or getrev()`, line 136); the update
child is spawned iff network interaction is enabled, and a task with no
child is treated as exit status 0 when polled. -/
theorem startupdate_oldrev_selection (opts : Opts) (t : RTask) :
    (startupdate opts t).oldrev
      = (if opts.local_rev = false ∧ truthyS t.savedrev = true then t.savedrev else t.rev0)
    ∧ (startupdate opts t).hasChild = opts.network
    ∧ (opts.network = false → retOf t (startupdate opts t) = 0) := by
  refine ⟨?_, rfl, ?_⟩
  · simp only [startupdate]
    by_cases h1 : opts.local_rev
    · simp [h1]
    · by_cases h2 : truthyS t.savedrev
      · simp [h1, h2]
      · simp [h1, h2]
  · intro hn
    simp [retOf, startupdate, hn]

/-- C9 witness: the amended capture rule evaluated on a concrete task in
no-network mode. -/
theorem startupdate_oldrev_selection_witness :
    (startupdate ⟨1, false, false⟩ egChanged).oldrev
      = (if (⟨1, false, false⟩ : Opts).local_rev = false ∧ truthyS egChanged.savedrev = true
          then egChanged.savedrev else egChanged.rev0)
    ∧ (startupdate ⟨1, false, false⟩ egChanged).hasChild = (⟨1, false, false⟩ : Opts).network
    ∧ ((⟨1, false, false⟩ : Opts).network = false
        → retOf egChanged (startupdate ⟨1, false, false⟩ egChanged) = 0) :=
  startupdate_oldrev_selection ⟨1, false, false⟩ egChanged

/-! ## Claim C6 -/

/-- C6 counterexample: on end-of-stream-before-any-data the parent does not
proceed with an empty ScanResult — `main` returns exit code 1 immediately
(lines 581-582) instead of continuing with `packages = [] , erraneous = []`. -/
theorem parent_handoff_claim_cex :
    parentHandoff none = .error 1
    ∧ parentHandoff none ≠ .ok { packages := [], erraneous := [] } :=
  ⟨rfl, by decide⟩

/-- C6 (amended): when the child terminated having written zero bytes, the
parent's read yields the explicit no-data outcome — the EOF condition is
caught rather than propagated past the caller — and `main` immediately
returns the non-zero exit code 1 without proceeding to the rebuild steps; a
successfully written message is passed through unchanged. -/
theorem parent_handoff_eof :
    parentHandoff none = .error 1
    ∧ (∀ d, parentHandoff (some d) = .ok d) :=
  ⟨rfl, fun _ => rfl⟩

/-! ## Claim C3 -/

/-- C3: with network interaction on, a task whose update child exits non-zero
has its resolving `endupdate` raise the update-failure exception; the run
still finishes, all of the task's package identifiers are appended to
`erraneous` and (package identifiers being pairwise distinct) none of them to
`packages`, and every remaining task is still processed to its own outcome. -/
theorem nonzero_exit_erraneous_isolated (jobs : Nat) (lr : Bool) (tasks : List RTask)
    (t : RTask) (fuel : Nat) (hj : 1 ≤ jobs) (ht : t ∈ tasks)
    (hsr : t.startRaises = false) (hx : t.exitStatus ≠ 0)
    (hnd : (tasks.flatMap RTask.cpv).Nodup)
    (hf : mu (initState tasks) < fuel) :
    endupdate t (startupdate ⟨jobs, true, lr⟩ t) = .error ()
    ∧ runFinished ⟨jobs, true, lr⟩ fuel tasks = true
    ∧ (∀ x ∈ t.cpv, x ∈ (finalState ⟨jobs, true, lr⟩ fuel tasks).erraneous
        ∧ x ∉ (finalState ⟨jobs, true, lr⟩ fuel tasks).packages)
    ∧ (∀ u ∈ tasks, ∀ x ∈ u.cpv,
        (taskOutcome ⟨jobs, true, lr⟩ u = .ok true
          → x ∈ (finalState ⟨jobs, true, lr⟩ fuel tasks).packages)
        ∧ (taskOutcome ⟨jobs, true, lr⟩ u = .error ()
          → x ∈ (finalState ⟨jobs, true, lr⟩ fuel tasks).erraneous)) := by
  have herr : endupdate t (startupdate ⟨jobs, true, lr⟩ t) = .error () := by
    simp [endupdate, retOf, startupdate, hx]
  obtain ⟨s2, hr, _, _, hpk, her, _⟩ :=
    schedRun_finishes ⟨jobs, true, lr⟩ hj fuel (initState tasks) hf
  have hfs : finalState ⟨jobs, true, lr⟩ fuel tasks = s2 := by
    simp [finalState, hr, stateOf]
  have hpk2 : (↑s2.packages : Multiset String) = (tasks.map (taskU ⟨jobs, true, lr⟩)).sum := by
    rw [hpk, totU_init]
  have her2 : (↑s2.erraneous : Multiset String) = (tasks.map (taskE ⟨jobs, true, lr⟩)).sum := by
    rw [her, totE_init]
  have hto : taskOutcome ⟨jobs, true, lr⟩ t = .error () := by
    simp [taskOutcome, hsr, herr]
  refine ⟨herr, by simp [runFinished, hr], ?_, ?_⟩
  · intro x hxc
    rw [hfs]
    have hxE : x ∈ (tasks.map (taskE ⟨jobs, true, lr⟩)).sum :=
      mem_sum_of_mem _ ht (by simp [taskE, hto, hxc])
    constructor
    · rw [← Multiset.mem_coe, her2]
      exact hxE
    · intro hmem
      have : x ∈ (tasks.map (taskU ⟨jobs, true, lr⟩)).sum := by
        rw [← hpk2]
        exact Multiset.mem_coe.mpr hmem
      exact not_mem_sumU_of_mem_sumE _ tasks hnd hxE this
  · intro u hu x hxc
    rw [hfs]
    constructor
    · intro hok
      rw [← Multiset.mem_coe, hpk2]
      exact mem_sum_of_mem _ hu (by simp [taskU, hok, hxc])
    · intro hbad
      rw [← Multiset.mem_coe, her2]
      exact mem_sum_of_mem _ hu (by simp [taskE, hbad, hxc])

/-- C3 witness: `egFailing` (exit status 2) lands in `erraneous`, not in
`packages`, while the sibling `egChanged` is still updated. -/
theorem nonzero_exit_erraneous_isolated_witness :
    endupdate egFailing (startupdate ⟨2, true, false⟩ egFailing) = .error ()
    ∧ runFinished ⟨2, true, false⟩ 20 [egChanged, egFailing, egUnchanged] = true
    ∧ (("dev-util/beta-9999") ∈
        (finalState ⟨2, true, false⟩ 20 [egChanged, egFailing, egUnchanged]).erraneous
      ∧ ("dev-util/beta-9999") ∉
        (finalState ⟨2, true, false⟩ 20 [egChanged, egFailing, egUnchanged]).packages)
    ∧ ("dev-util/alpha-9999") ∈
        (finalState ⟨2, true, false⟩ 20 [egChanged, egFailing, egUnchanged]).packages := by
  obtain ⟨h1, h2, h3, h4⟩ := nonzero_exit_erraneous_isolated 2 false
    [egChanged, egFailing, egUnchanged] egFailing 20 (by decide) (by decide) rfl
    (by decide) (by decide) (by decide)
  exact ⟨h1, h2, h3 _ (by decide),
    (h4 egChanged (by decide) _ (by decide)).1 (by decide)⟩

/-! ## Claim C2 -/

/-- C2: a run interrupted by a cancellation signal during the scheduler loop
returns through the `KeyboardInterrupt` handler rather than raising: the
aborted list is exactly the in-flight list; every in-flight task with a child
process was sent a termination signal (`term` event recorded, no wait); every
identifier an earlier interrupt point would have returned is still in the
returned sequences (previously resolved tasks keep their contribution); and,
package identifiers being pairwise distinct, no still-in-flight task's
identifier appears in either returned sequence. -/
theorem cancellation_partial_result (jobs : Nat) (net lr : Bool) (tasks : List RTask)
    (k fuel : Nat) (s2 : SchedState) (ab : List Proc)
    (hnd : (tasks.flatMap RTask.cpv).Nodup)
    (hrun : schedRun ⟨jobs, net, lr⟩ fuel (some k) (initState tasks) = .interrupted s2 ab) :
    ab = s2.processes
    ∧ (∀ p ∈ ab, abortupdate p = true → Ev.term p.task.cpv ∈ s2.trace)
    ∧ (∀ p ∈ ab, ∀ x ∈ p.task.cpv, x ∉ s2.packages ∧ x ∉ s2.erraneous)
    ∧ (∀ (j : Nat) (sj : SchedState) (abj : List Proc), j ≤ k →
        schedRun ⟨jobs, net, lr⟩ fuel (some j) (initState tasks) = .interrupted sj abj →
        sj.packages ⊆ s2.packages ∧ sj.erraneous ⊆ s2.erraneous) := by
  obtain ⟨hab, hterm, _, _, hq⟩ :=
    schedRun_interrupted_spec ⟨jobs, net, lr⟩ fuel k (initState tasks) s2 ab hrun
  refine ⟨hab, hterm, ?_, ?_⟩
  · intro p hp x hx
    exact qtot_excl hnd hq (hab ▸ hp) hx
  · intro j sj abj hjk hj
    exact interrupt_mono ⟨jobs, net, lr⟩ fuel j k (initState tasks) sj s2 abj ab hjk hj hrun

/-- C2 witness: the run of `[egChanged, egUnchanged]` at concurrency bound 2,
interrupted at iteration 2: `egChanged` has already resolved into `packages`,
the still-in-flight `egUnchanged` got a SIGTERM and appears in neither
sequence. -/
theorem cancellation_partial_result_witness :
    [egIntProc] = egIntState.processes
    ∧ Ev.term egUnchanged.cpv ∈ egIntState.trace
    ∧ (("dev-util/gamma-9999") ∉ egIntState.packages
      ∧ ("dev-util/gamma-9999") ∉ egIntState.erraneous)
    ∧ ("dev-util/alpha-9999") ∈ egIntState.packages := by
  obtain ⟨hab, hterm, hexcl, _⟩ := cancellation_partial_result 2 true false
    [egChanged, egUnchanged] 2 20 egIntState [egIntProc] (by decide) (by decide)
  exact ⟨hab, hterm egIntProc (by decide) (by decide),
    hexcl egIntProc (by decide) _ (by decide), by decide⟩

/-! ## Claim C5 -/

/-- C5: two packages whose shared backend derives the same working-copy path
collapse into exactly one repository task holding both identifiers — merging
only appends the second identifier to the task built from the first package's
detection and environment — the task's update command is spawned exactly once
and its revision re-check runs exactly once (when the child exits 0, and never
more than once), and the two identifiers always land together: both in
`packages`, or both in `erraneous`, or both in neither. -/
theorem shared_path_single_task (jobs : Nat) (lr : Bool) (distdir : String)
    (cA cB : Candidate) (k : VcsKind) (dA : String) (sA sB : Option String) (fuel : Nat)
    (hj : 1 ≤ jobs)
    (hkA : matchedKinds cA = [k]) (hkB : matchedKinds cB = [k])
    (hA : initOutcome k cA.env = .ok sA) (hB : initOutcome k cB.env = .ok sB)
    (hpA : getpath k distdir cA.env = some dA) (hpB : getpath k distdir cB.env = some dA)
    (hsr : cA.startRaises = false)
    (hf : cA.delay + 2 < fuel) :
    (enumerate ⟨jobs, true, lr⟩ distdir [cA, cB] emptyEnum).rebuilds
      = [(dA, { mkTask k cA sA with cpv := [cA.cpv, cB.cpv] })]
    ∧ (enumerate ⟨jobs, true, lr⟩ distdir [cA, cB] emptyEnum).erraneous = []
    ∧ runFinished ⟨jobs, true, lr⟩ fuel
        [{ mkTask k cA sA with cpv := [cA.cpv, cB.cpv] }] = true
    ∧ (finalState ⟨jobs, true, lr⟩ fuel
        [{ mkTask k cA sA with cpv := [cA.cpv, cB.cpv] }]).trace.count
          (Ev.updcmd [cA.cpv, cB.cpv]) = 1
    ∧ (finalState ⟨jobs, true, lr⟩ fuel
        [{ mkTask k cA sA with cpv := [cA.cpv, cB.cpv] }]).trace.count
          (Ev.recheck [cA.cpv, cB.cpv]) = (if cA.exitStatus = 0 then 1 else 0)
    ∧ ((cA.cpv ∈ (finalState ⟨jobs, true, lr⟩ fuel
          [{ mkTask k cA sA with cpv := [cA.cpv, cB.cpv] }]).packages)
        ↔ (cB.cpv ∈ (finalState ⟨jobs, true, lr⟩ fuel
          [{ mkTask k cA sA with cpv := [cA.cpv, cB.cpv] }]).packages))
    ∧ ((cA.cpv ∈ (finalState ⟨jobs, true, lr⟩ fuel
          [{ mkTask k cA sA with cpv := [cA.cpv, cB.cpv] }]).erraneous)
        ↔ (cB.cpv ∈ (finalState ⟨jobs, true, lr⟩ fuel
          [{ mkTask k cA sA with cpv := [cA.cpv, cB.cpv] }]).erraneous)) := by
  set tk : RTask := { mkTask k cA sA with cpv := [cA.cpv, cB.cpv] } with htk
  have henum : (enumerate ⟨jobs, true, lr⟩ distdir [cA, cB] emptyEnum)
      = { erraneous := [], rebuilds := [(dA, tk)], log := [] } := by
    simp [enumerate, processCandidate, hkA, hkB, runKinds, stepKind, hA, hB, hpA, hpB,
      rbLookup, rbUpdate, emptyEnum, htk, mkTask]
  have hfuel : mu (initState [tk]) < fuel := by
    simp only [mu, initState, List.map_cons, List.map_nil, List.sum_cons, List.sum_nil,
      muTask, htk]
    simpa [mkTask] using hf
  obtain ⟨s2, hr, _, _, hpk, her, htr⟩ :=
    schedRun_finishes ⟨jobs, true, lr⟩ hj fuel (initState [tk]) hfuel
  have hfs : finalState ⟨jobs, true, lr⟩ fuel [tk] = s2 := by
    simp [finalState, hr, stateOf]
  have hsr2 : tk.startRaises = false := by simp [htk, mkTask, hsr]
  have hst : (startupdate ⟨jobs, true, lr⟩ tk).hasChild = true := rfl
  have hretOf : retOf tk (startupdate ⟨jobs, true, lr⟩ tk) = cA.exitStatus := rfl
  have hT2 : taskT ⟨jobs, true, lr⟩ tk
      = ↑(startEvents ⟨jobs, true, lr⟩ tk ++ endEvents tk (startupdate ⟨jobs, true, lr⟩ tk)) := by
    unfold taskT
    rw [hsr2]
    simp
  have htrace : (↑s2.trace : Multiset Ev)
      = ↑(startEvents ⟨jobs, true, lr⟩ tk ++ endEvents tk (startupdate ⟨jobs, true, lr⟩ tk)) := by
    rw [htr, totT_init]
    simp [hT2]
  have hcount : ∀ e : Ev, s2.trace.count e
      = (startEvents ⟨jobs, true, lr⟩ tk ++ endEvents tk (startupdate ⟨jobs, true, lr⟩ tk)).count e := by
    intro e
    rw [← Multiset.coe_count, ← Multiset.coe_count, htrace]
  have hcpv : tk.cpv = [cA.cpv, cB.cpv] := by simp [htk]
  refine ⟨by rw [henum], by rw [henum], by simp [runFinished, hr], ?_, ?_, ?_, ?_⟩
  · rw [hfs, hcount]
    simp only [startEvents, endEvents, hretOf, hcpv]
    by_cases h0 : cA.exitStatus = 0 <;> simp [h0, List.count_cons, List.count_nil]
  · rw [hfs, hcount]
    simp only [startEvents, endEvents, hretOf, hcpv]
    by_cases h0 : cA.exitStatus = 0 <;> simp [h0, List.count_cons, List.count_nil]
  · rw [hfs]
    have hpk2 : (↑s2.packages : Multiset String) = taskU ⟨jobs, true, lr⟩ tk := by
      rw [hpk, totU_init]; simp
    by_cases hok : taskOutcome ⟨jobs, true, lr⟩ tk = .ok true
    · have : (↑s2.packages : Multiset String) = ↑tk.cpv := by
        rw [hpk2]
        unfold taskU
        rw [hok]
        simp
      rw [hcpv] at this
      constructor
      · intro _
        rw [← Multiset.mem_coe, this]; simp
      · intro _
        rw [← Multiset.mem_coe, this]; simp
    · have : (↑s2.packages : Multiset String) = 0 := by
        rw [hpk2]
        unfold taskU
        rw [if_neg hok]
      constructor
      · intro hmem
        exact absurd (Multiset.mem_coe.mpr hmem) (by rw [this]; simp)
      · intro hmem
        exact absurd (Multiset.mem_coe.mpr hmem) (by rw [this]; simp)
  · rw [hfs]
    have her2 : (↑s2.erraneous : Multiset String) = taskE ⟨jobs, true, lr⟩ tk := by
      rw [her, totE_init]; simp
    rcases hout : taskOutcome ⟨jobs, true, lr⟩ tk with e | b
    · have : (↑s2.erraneous : Multiset String) = ↑tk.cpv := by
        rw [her2]
        unfold taskE
        rw [hout]
      rw [hcpv] at this
      constructor
      · intro _
        rw [← Multiset.mem_coe, this]; simp
      · intro _
        rw [← Multiset.mem_coe, this]; simp
    · have : (↑s2.erraneous : Multiset String) = 0 := by
        rw [her2]
        unfold taskE
        rw [hout]
      constructor
      · intro hmem
        exact absurd (Multiset.mem_coe.mpr hmem) (by rw [this]; simp)
      · intro hmem
        exact absurd (Multiset.mem_coe.mpr hmem) (by rw [this]; simp)

/-- C5 witness: `egCandA` and `egCandB` (same git store directory and
project) collapse into one task; the update command and re-check each run
once and both identifiers are updated together. -/
theorem shared_path_single_task_witness :
    (enumerate ⟨1, true, false⟩ ("/dist") [egCandA, egCandB] emptyEnum).rebuilds
      = [(("/store/proj"),
          { mkTask .git egCandA (some ("")) with cpv := [egCandA.cpv, egCandB.cpv] })]
    ∧ (enumerate ⟨1, true, false⟩ ("/dist") [egCandA, egCandB] emptyEnum).erraneous = []
    ∧ runFinished ⟨1, true, false⟩ 10
        [{ mkTask .git egCandA (some ("")) with cpv := [egCandA.cpv, egCandB.cpv] }] = true
    ∧ (finalState ⟨1, true, false⟩ 10
        [{ mkTask .git egCandA (some ("")) with cpv := [egCandA.cpv, egCandB.cpv] }]).trace.count
          (Ev.updcmd [egCandA.cpv, egCandB.cpv]) = 1
    ∧ (finalState ⟨1, true, false⟩ 10
        [{ mkTask .git egCandA (some ("")) with cpv := [egCandA.cpv, egCandB.cpv] }]).trace.count
          (Ev.recheck [egCandA.cpv, egCandB.cpv]) = (if egCandA.exitStatus = 0 then 1 else 0)
    ∧ ((egCandA.cpv ∈ (finalState ⟨1, true, false⟩ 10
          [{ mkTask .git egCandA (some ("")) with cpv := [egCandA.cpv, egCandB.cpv] }]).packages)
        ↔ (egCandB.cpv ∈ (finalState ⟨1, true, false⟩ 10
          [{ mkTask .git egCandA (some ("")) with cpv := [egCandA.cpv, egCandB.cpv] }]).packages))
    ∧ ((egCandA.cpv ∈ (finalState ⟨1, true, false⟩ 10
          [{ mkTask .git egCandA (some ("")) with cpv := [egCandA.cpv, egCandB.cpv] }]).erraneous)
        ↔ (egCandB.cpv ∈ (finalState ⟨1, true, false⟩ 10
          [{ mkTask .git egCandA (some ("")) with cpv := [egCandA.cpv, egCandB.cpv] }]).erraneous)) :=
  shared_path_single_task 1 false ("/dist") egCandA egCandB .git ("/store/proj")
    (some ("")) (some ("")) 10 (by decide) (by decide) (by decide) (by decide) (by decide)
    (by decide) (by decide) (by decide) (by decide)

/-! ## Claim C7 -/

/-- C7 counterexample: a pinned (NotActuallyLive) git package is excluded from
both sequences and from the rebuild map, but an error log line naming the
package IS produced (`out.err` at line 517) — the claimed "no error log line"
is false. -/
theorem nonlive_claim_cex :
    (enumerate ⟨1, true, false⟩ ("/dist") [egCandNonlive] emptyEnum).log
      = [.errNonlive ("dev-util/pinned-9999")]
    ∧ (enumerate ⟨1, true, false⟩ ("/dist") [egCandNonlive] emptyEnum).erraneous = []
    ∧ (enumerate ⟨1, true, false⟩ ("/dist") [egCandNonlive] emptyEnum).rebuilds = [] := by
  refine ⟨?_, ?_, ?_⟩ <;> decide

/-- C7 (amended): a package classified NotActuallyLive by its (single
matching) backend is excluded — its identifier enters neither `erraneous` nor
any repository task, and the enumeration continues over the remaining
candidates with nothing but the log changed — but an error log line naming
the package IS printed, contrary to the claim's "no error log line"; and any
identifier absent from the rebuild worklist appears in neither final
scheduler sequence. -/
theorem nonlive_excluded_logged (opts : Opts) (distdir : String) (c : Candidate)
    (k : VcsKind) (rest : List Candidate) (st : EnumState)
    (hk : matchedKinds c = [k]) (hnl : initOutcome k c.env = .nonlive) :
    enumerate opts distdir (c :: rest) st
      = enumerate opts distdir rest { st with log := st.log ++ [.errNonlive c.cpv] }
    ∧ (∀ (opts2 : Opts) (fuel : Nat) (tasks : List RTask) (x : String),
        1 ≤ opts2.jobs → mu (initState tasks) < fuel → x ∉ tasks.flatMap RTask.cpv →
        x ∉ (finalState opts2 fuel tasks).packages
        ∧ x ∉ (finalState opts2 fuel tasks).erraneous) := by
  constructor
  · simp [enumerate, processCandidate, hk, runKinds, stepKind, hnl]
  · intro opts2 fuel tasks x hj hf hx
    obtain ⟨s2, hr, _, _, hpk, her, _⟩ := schedRun_finishes opts2 hj fuel (initState tasks) hf
    have hfs : finalState opts2 fuel tasks = s2 := by simp [finalState, hr, stateOf]
    rw [hfs]
    constructor
    · intro hmem
      apply hx
      have h1 : x ∈ (↑s2.packages : Multiset String) := Multiset.mem_coe.mpr hmem
      rw [hpk, totU_init] at h1
      have h2 : x ∈ (↑(tasks.flatMap RTask.cpv) : Multiset String) :=
        Multiset.mem_of_le
          (le_trans (self_le_add_right _ _) (sum_taskU_add_sum_taskE_le opts2 tasks)) h1
      exact Multiset.mem_coe.mp h2
    · intro hmem
      apply hx
      have h1 : x ∈ (↑s2.erraneous : Multiset String) := Multiset.mem_coe.mpr hmem
      rw [her, totE_init] at h1
      have h2 : x ∈ (↑(tasks.flatMap RTask.cpv) : Multiset String) :=
        Multiset.mem_of_le
          (le_trans (self_le_add_left _ _) (sum_taskU_add_sum_taskE_le opts2 tasks)) h1
      exact Multiset.mem_coe.mp h2

/-- C7 witness: the pinned package `egCandNonlive` only adds a log line to the
enumeration of the remaining candidates, and its identifier is absent from the
final sequences of a run that excludes it. -/
theorem nonlive_excluded_logged_witness :
    enumerate ⟨1, true, false⟩ ("/dist") [egCandNonlive, egCandB] emptyEnum
      = enumerate ⟨1, true, false⟩ ("/dist") [egCandB]
          { erraneous := [], rebuilds := []
            log := [.errNonlive ("dev-util/pinned-9999")] }
    ∧ (("dev-util/pinned-9999") ∉ (finalState ⟨1, true, false⟩ 20 [egChanged]).packages
      ∧ ("dev-util/pinned-9999") ∉ (finalState ⟨1, true, false⟩ 20 [egChanged]).erraneous) := by
  obtain ⟨h1, h2⟩ := nonlive_excluded_logged ⟨1, true, false⟩ ("/dist") egCandNonlive .git
    [egCandB] emptyEnum (by decide) (by decide)
  exact ⟨h1, h2 ⟨1, true, false⟩ 20 [egChanged] _ (by decide) (by decide) (by decide)⟩

/-! ## Claim C8 -/

/-- C8 counterexample: a package whose environment leaves a required variable
empty is excluded from the rebuild map and logged — but its identifier IS
placed in the erraneous sequence (generic handler, lines 518-520), so the
claimed "not placed in the erraneous sequence" is false. -/
theorem missing_var_claim_cex :
    (enumerate ⟨1, true, false⟩ ("/dist") [egCandMissing] emptyEnum).erraneous
      = [("dev-util/broken-9999")]
    ∧ (enumerate ⟨1, true, false⟩ ("/dist") [egCandMissing] emptyEnum).rebuilds = []
    ∧ (enumerate ⟨1, true, false⟩ ("/dist") [egCandMissing] emptyEnum).log
      = [.errEnum ("dev-util/broken-9999")] := by
  refine ⟨?_, ?_, ?_⟩ <;> decide

/-- C8 (amended): a package whose parsed environment leaves a required
variable absent or empty fails classification with the missing-variable
`KeyError`; the package is excluded from the rebuild map and logged, and its
identifier IS appended to the erraneous sequence — the same disposition as
`UpdateCommandFailed` and the generic `UnexpectedError`, contrary to the
claim's exemption. -/
theorem missing_var_excluded_and_erraneous (opts : Opts) (distdir : String)
    (c : Candidate) (k : VcsKind) (rest : List Candidate) (st : EnumState)
    (hk : matchedKinds c = [k])
    (hmv : ((reqenv k).any fun v => envget c.env v == "") = true) :
    initOutcome k c.env = .exc
    ∧ enumerate opts distdir (c :: rest) st
      = enumerate opts distdir rest
          { st with erraneous := st.erraneous ++ [c.cpv], log := st.log ++ [.errEnum c.cpv] } := by
  have hexc : initOutcome k c.env = .exc := by simp [initOutcome, hmv]
  exact ⟨hexc, by simp [enumerate, processCandidate, hk, runKinds, stepKind, hexc]⟩

/-- C8 witness: `egCandMissing` (no `EGIT_BRANCH`) is classified as the
missing-variable error and goes to `erraneous` plus the log. -/
theorem missing_var_excluded_and_erraneous_witness :
    initOutcome .git egCandMissing.env = .exc
    ∧ enumerate ⟨1, true, false⟩ ("/dist") [egCandMissing, egCandB] emptyEnum
      = enumerate ⟨1, true, false⟩ ("/dist") [egCandB]
          { erraneous := [("dev-util/broken-9999")], rebuilds := []
            log := [.errEnum ("dev-util/broken-9999")] } :=
  missing_var_excluded_and_erraneous ⟨1, true, false⟩ ("/dist") egCandMissing .git
    [egCandB] emptyEnum (by decide) (by decide)

end SmartLiveRebuild
